import Mathlib

/-!
Verification development for the superhuman-newsletter-mcp scraping pipeline
(src/index.ts).  The pipeline is embedded shallowly: HTML documents are
modelled as a tree of elements and text nodes, the DOM queries used by the
source (querySelector, querySelectorAll, getAttribute, the text accessor,
element removal) are implemented over that tree, and the scraping, listing
collection, content extraction, digest formatting and tool-handler control
flow are translated function by function.  External effects are explicit
parameters: network fetches become `Except String`-valued inputs, JSON.parse
of structured-data blocks becomes a `String -> Option LdData` parameter,
Date.toLocaleDateString becomes a `String -> String` parameter, and the
turndown HTML-to-markdown conversion becomes a `Node -> String` parameter.
-/

-- ### JavaScript-style string primitives, implemented on character lists so
-- ### that every operation reduces definitionally.

/-- pat is a leading segment of s (chars). Models JS String.startsWith. -/
def leadsChars : List Char → List Char → Bool
  | [], _ => true
  | _ :: _, [] => false
  | p :: ps, c :: cs => p == c && leadsChars ps cs

/-- pat occurs contiguously inside s (chars). Models JS String.includes. -/
def occursChars (pat : List Char) : List Char → Bool
  | [] => leadsChars pat []
  | c :: cs => leadsChars pat (c :: cs) || occursChars pat cs

/-- Models JS s.startsWith pat. -/
def jsStartsWith (s pat : String) : Bool := leadsChars pat.data s.data

/-- Models JS s.includes pat. -/
def jsIncludes (s pat : String) : Bool := occursChars pat.data s.data

/-- Drop leading whitespace characters. -/
def dropWs : List Char → List Char
  | [] => []
  | c :: cs => if c.isWhitespace then dropWs cs else c :: cs

/-- Models JS s.trim. -/
def jsTrim (s : String) : String :=
  String.mk ((dropWs (dropWs s.data).reverse).reverse)

/-- Models lower-casing for the case-insensitive sponsor regexes. -/
def jsLower (s : String) : String := String.mk (s.data.map Char.toLower)

/-- Models slug.replace of hyphen by space (regex with the g flag, one char). -/
def hyphensToSpaces (s : String) : String :=
  String.mk (s.data.map (fun c => if c == '-' then ' ' else c))

/-- Whitespace-separated tokens of a class attribute value (CSS class list). -/
def classTokens (s : String) : List String :=
  go s.data []
where
  go : List Char → List Char → List String
    | [], acc => if acc.isEmpty then [] else [String.mk acc.reverse]
    | c :: cs, acc =>
        if c.isWhitespace then
          if acc.isEmpty then go cs [] else String.mk acc.reverse :: go cs []
        else go cs (c :: acc)

-- ### The DOM model.

mutual
/-- An HTML DOM node as produced by node-html-parser: an element with a tag
name, attributes and children, or a text node. -/
inductive Node where
  | elem (tag : String) (attrs : List (String × String)) (children : NodeList)
  | text (s : String)
inductive NodeList where
  | nil
  | cons (n : Node) (ns : NodeList)
end

/-- Build a NodeList from a Lean list (literals convenience). -/
def NodeList.ofList : List Node → NodeList
  | [] => .nil
  | n :: ns => .cons n (NodeList.ofList ns)

/-- Element constructor taking a plain list of children. -/
def Node.el (tag : String) (attrs : List (String × String)) (children : List Node) : Node :=
  .elem tag attrs (NodeList.ofList children)

/-- Models el.getAttribute: none when the attribute is absent. -/
def attrOf (n : Node) (name : String) : Option String :=
  match n with
  | .elem _ attrs _ => (attrs.find? (fun p => p.1 == name)).map (fun p => p.2)
  | .text _ => none

/-- Tag of an element, empty string for a text node. -/
def Node.tagOf : Node → String
  | .elem t _ _ => t
  | .text _ => ""

mutual
/-- Models el.text: the concatenated text of all descendant text nodes, in
document order. -/
def Node.textOf : Node → String
  | .text s => s
  | .elem _ _ cs => NodeList.textOf cs
def NodeList.textOf : NodeList → String
  | .nil => ""
  | .cons c cs => Node.textOf c ++ NodeList.textOf cs
end

mutual
/-- Models root.querySelectorAll p: every descendant (excluding the root
itself) satisfying p, in document (pre-)order. -/
def qAll (p : Node → Bool) : Node → List Node
  | .text _ => []
  | .elem _ _ cs => qAllList p cs
def qAllList (p : Node → Bool) : NodeList → List Node
  | .nil => []
  | .cons c cs => (if p c then [c] else []) ++ qAll p c ++ qAllList p cs
end

mutual
/-- Models root.querySelector p: the first descendant (excluding the root
itself) satisfying p, in document order. -/
def qFirst (p : Node → Bool) : Node → Option Node
  | .text _ => none
  | .elem _ _ cs => qFirstList p cs
def qFirstList (p : Node → Bool) : NodeList → Option Node
  | .nil => none
  | .cons c cs => (if p c then some c else qFirst p c) <|> qFirstList p cs
end

/-- Does a noise matcher (a predicate on tag and attributes) hold of a node? -/
def Node.hitBy (m : String → List (String × String) → Bool) : Node → Bool
  | .elem t a _ => m t a
  | .text _ => false

mutual
/-- Remove from the tree every descendant element (root excluded) whose tag
and attributes satisfy m, together with its whole subtree.  Models the
source loop that calls remove() on each querySelectorAll match for a
structural selector: matching is attribute-based, so the snapshot-then-remove
loop of the source is equivalent to this one-pass pruning. -/
def Node.removeAll (m : String → List (String × String) → Bool) : Node → Node
  | .text s => .text s
  | .elem t a cs => .elem t a (NodeList.removeAll m cs)
def NodeList.removeAll (m : String → List (String × String) → Bool) : NodeList → NodeList
  | .nil => .nil
  | .cons c cs =>
      if c.hitBy m then NodeList.removeAll m cs
      else .cons (Node.removeAll m c) (NodeList.removeAll m cs)
end

-- ### Selectors used by the noise-stripping loops.

/-- The three selector shapes appearing in the noise lists of the source:
a plain tag selector, a class-substring selector of shape
tagless class-contains, and a class selector testing one class token. -/
inductive Sel where
  | tagSel (t : String)
  | classSub (s : String)
  | classTok (s : String)

/-- CSS matching of one selector against an element's tag and attributes. -/
def selMatch : Sel → String → List (String × String) → Bool
  | .tagSel t, tag, _ => tag == t
  | .classSub s, _, attrs =>
      match (attrs.find? (fun p => p.1 == "class")).map (fun p => p.2) with
      | some v => jsIncludes v s
      | none => false
  | .classTok s, _, attrs =>
      match (attrs.find? (fun p => p.1 == "class")).map (fun p => p.2) with
      | some v => (classTokens v).contains s
      | none => false

/-- The source iterates over a list of selectors, removing every match of
each in turn. -/
def stripNoise (sels : List Sel) (n : Node) : Node :=
  sels.foldl (fun acc s => acc.removeAll (selMatch s)) n

-- ### Sponsor stripping.

/-- SPONSOR_PATTERNS of the source: three case-insensitive regexes tested
against element text. -/
def sponsorHit (s : String) : Bool :=
  jsIncludes (jsLower s) "presented by" || jsIncludes (jsLower s) "sponsored by" ||
    jsIncludes (jsLower s) "advertisement"

/-- Does the sponsor-stripping loop for the given tag list delete this node?
The source tests every querySelectorAll match of the tag-union selector and
removes it when its text matches a sponsor pattern; ancestors precede
descendants in document order, so each surviving element is tested against
its original text, which makes the loop equivalent to this top-down test. -/
def sponsorTest (tags : List String) : Node → Bool
  | .elem t a cs => tags.contains t && sponsorHit (Node.elem t a cs).textOf
  | .text _ => false

mutual
/-- Top-down sponsor pruning of the content region (region root kept). -/
def stripSponsors (tags : List String) : Node → Node
  | .text s => .text s
  | .elem t a cs => .elem t a (stripSponsorsList tags cs)
def stripSponsorsList (tags : List String) : NodeList → NodeList
  | .nil => .nil
  | .cons c cs =>
      if sponsorTest tags c then stripSponsorsList tags cs
      else .cons (stripSponsors tags c) (stripSponsorsList tags cs)
end

-- ### Data model.

/-- PostListing of the source. -/
structure PostListing where
  title : String
  date : String
  url : String
  slug : String
deriving Repr, DecidableEq

/-- An entry of external_links. -/
structure ExtLink where
  text : String
  url : String
deriving Repr, DecidableEq

/-- PostContent of the source (extends PostListing). -/
structure PostContent extends PostListing where
  author : String
  subtitle : String
  content_markdown : String
  external_links : List ExtLink
  featured_image : Option String
deriving Repr, DecidableEq

/-- BASE_URL constant of the source. -/
def shBaseUrl : String := "https://www.superhuman.ai"

/-- CODE_BASE_URL constant of the source. -/
def codeBaseUrl : String := "https://codenewsletter.ai"

/-- CODE_AUTHOR constant of the source. -/
def codeAuthor : String := "The Code team"

-- ### Step 1: scraping post listings (scrapePostListings).
-- The source iterates root.querySelectorAll of anchors whose href attribute
-- begins with /p/, reads the card container two parent levels above each
-- anchor, and deduplicates by href via a seen set.

/-- Matches the selector of anchors whose href begins with /p/. -/
def isPostAnchor (n : Node) : Bool :=
  n.tagOf == "a" && jsStartsWith ((attrOf n "href").getD "") "/p/"

mutual
/-- All post anchors among the descendants of a node, each paired with its
grandparent (parentNode of parentNode), in document order.  g is the
grandparent and p the parent of the node inspected. -/
def anchorsGP (g p : Option Node) : Node → List (Node × Option Node)
  | .text _ => []
  | .elem t a cs =>
      (if isPostAnchor (.elem t a cs) then [((.elem t a cs : Node), g)] else [])
        ++ anchorsGPList p (some (.elem t a cs)) cs
def anchorsGPList (g p : Option Node) : NodeList → List (Node × Option Node)
  | .nil => []
  | .cons c cs => anchorsGP g p c ++ anchorsGPList g p cs
end

/-- The anchors of the whole document: children of the parse root have the
root as parent and no grandparent. -/
def postAnchorsOf (root : Node) : List (Node × Option Node) :=
  match root with
  | .text _ => []
  | .elem t a cs => anchorsGPList none (some (.elem t a cs)) cs

/-- Tag-equality test used with qFirst. -/
def tagIs (t : String) (n : Node) : Bool := n.tagOf == t

/-- The loop body of scrapePostListings: walk the anchors, skip duplicate
hrefs (seen set), and build listings from the card container. -/
def shListingsGo : List (Node × Option Node) → List String → List PostListing
  | [], _ => []
  | (link, card) :: rest, seen =>
      let href := (attrOf link "href").getD ""
      if !jsStartsWith href "/p/" || seen.contains href then
        shListingsGo rest seen
      else
        let slug := href.drop 3
        let postUrl := shBaseUrl ++ href
        let title :=
          (((card.bind (qFirst (tagIs "h2"))).map (fun h => jsTrim h.textOf)) <|>
            ((card.bind (qFirst (tagIs "img"))).bind (fun i => attrOf i "alt")).map jsTrim).getD
            (hyphensToSpaces slug)
        let rawDate := ((card.bind (qFirst (tagIs "span"))).map (fun s => jsTrim s.textOf)).getD ""
        { title := title, date := rawDate, url := postUrl, slug := slug } ::
          shListingsGo rest (href :: seen)

/-- scrapePostListings of the source, applied to the parsed page. -/
def scrapePostListings (root : Node) : List PostListing :=
  shListingsGo (postAnchorsOf root) []

-- ### Listing pagination (collectListings).
-- The source loops: fetch page, stop on an empty batch, append, stop once
-- the requested count is reached, else advance to the next page.  Each
-- continuing iteration grows the accumulator by at least one, so count + 1
-- steps of fuel always suffice; pages is the composition of fetchHtml and
-- parse for a given page number, returning an error when the fetch fails.

/-- The while loop of collectListings. -/
def collectGo (pages : Nat → Except String Node) (count : Nat) :
    Nat → Nat → List PostListing → Except String (List PostListing)
  | 0, _, all => .ok all
  | fuel + 1, page, all =>
      if all.length < count then
        match pages page with
        | .error e => .error e
        | .ok html =>
            let batch := scrapePostListings html
            if batch.length = 0 then .ok all
            else
              let all2 := all ++ batch
              if count ≤ all2.length then .ok all2
              else collectGo pages count fuel (page + 1) all2
      else .ok all

/-- collectListings of the source: run the pagination loop from page 1 and
slice the accumulated listings to the requested count. -/
def collectListings (pages : Nat → Except String Node) (count : Nat) :
    Except String (List PostListing) :=
  (collectGo pages count (count + 1) 1 []).map (fun all => all.take count)

-- ### The Code newsletter listings (scrapeCodeListings): a single archive
-- page, anchors deduplicated by href, title from an h3 and date from a p
-- inside the anchor itself.

/-- The loop body of scrapeCodeListings. -/
def codeListingsGo : List Node → List String → List PostListing
  | [], _ => []
  | link :: rest, seen =>
      let href := (attrOf link "href").getD ""
      if !jsStartsWith href "/p/" || seen.contains href then
        codeListingsGo rest seen
      else
        let slug := href.drop 3
        let postUrl := codeBaseUrl ++ href
        let title := ((qFirst (tagIs "h3") link).map (fun h => jsTrim h.textOf)).getD
          (hyphensToSpaces slug)
        let rawDate := ((qFirst (tagIs "p") link).map (fun p => jsTrim p.textOf)).getD ""
        { title := title, date := rawDate, url := postUrl, slug := slug } ::
          codeListingsGo rest (href :: seen)

/-- scrapeCodeListings of the source, applied to the parsed archive page. -/
def scrapeCodeListings (root : Node) : List PostListing :=
  codeListingsGo (qAll isPostAnchor root) []

-- ### Step 2: post content extraction (scrapePostContent and
-- ### scrapeCodePostContent).

/-- The result of JSON.parse on one structured-data script block, restricted
to the fields the source reads.  A field is the empty string when the parsed
object lacks it (or holds a falsy value): the source guards every field with
a JS truthiness test, for which the empty string and an absent field behave
identically. -/
structure LdData where
  headline : String
  datePublished : String
  description : String
  imageUrl : String
  authorName : String
deriving Repr, DecidableEq

/-- The mutable metadata locals of the extraction functions. -/
structure MetaFields where
  title : String
  date : String
  description : String
  image : String
  author : String
deriving Repr, DecidableEq

/-- One iteration of the structured-data loop of scrapePostContent: a block
that fails to parse is skipped, and each present field overwrites the
current value.  fmtDate models new Date(x).toLocaleDateString with the
long-form en-US options. -/
def shLdStep (fmtDate : String → String) (m : MetaFields) : Option LdData → MetaFields
  | none => m
  | some d =>
      { title := if d.headline ≠ "" then d.headline else m.title
        date := if d.datePublished ≠ "" then fmtDate d.datePublished else m.date
        description := if d.description ≠ "" then d.description else m.description
        image := if d.imageUrl ≠ "" then d.imageUrl else m.image
        author := if d.authorName ≠ "" then d.authorName else m.author }

/-- One iteration of the structured-data loop of scrapeCodePostContent: the
author field is not read at all (the author local is a constant there). -/
def codeLdStep (fmtDate : String → String) (m : MetaFields) : Option LdData → MetaFields
  | none => m
  | some d =>
      { title := if d.headline ≠ "" then d.headline else m.title
        date := if d.datePublished ≠ "" then fmtDate d.datePublished else m.date
        description := if d.description ≠ "" then d.description else m.description
        image := if d.imageUrl ≠ "" then d.imageUrl else m.image
        author := m.author }

/-- Matches the selector of structured-data scripts. -/
def isLdScript (n : Node) : Bool :=
  n.tagOf == "script" && ((attrOf n "type").getD "" == "application/ld+json")

/-- The text of every embedded structured-data script block, document order. -/
def ldScriptTexts (root : Node) : List String :=
  (qAll isLdScript root).map Node.textOf

/-- Matches a meta element with the given property attribute value. -/
def metaProp (p : String) (n : Node) : Bool :=
  n.tagOf == "meta" && ((attrOf n "property").map (fun v => v == p)).getD false

/-- The content attribute of the og meta tag with the given property, when
both the tag and the attribute exist. -/
def ogContent (p : String) (root : Node) : Option String :=
  (qFirst (metaProp p) root).bind (fun n => attrOf n "content")

/-- Matches an element whose id attribute has the given value. -/
def idIs (i : String) (n : Node) : Bool :=
  ((attrOf n "id").map (fun v => v == i)).getD false

/-- Matches an element whose class list contains the given token. -/
def classTokIs (s : String) (n : Node) : Bool :=
  ((attrOf n "class").map (fun v => (classTokens v).contains s)).getD false

/-- The content-region selection shared by both extraction functions:
the content-blocks id, then the rendered-post class, then main, then body,
then the whole document. -/
def contentRegion (root : Node) : Node :=
  ((qFirst (idIs "content-blocks") root) <|>
    (qFirst (classTokIs "rendered-post") root) <|>
    (qFirst (tagIs "main") root) <|>
    (qFirst (tagIs "body") root)).getD root

/-- The noise-selector list of scrapePostContent. -/
def shNoiseSels : List Sel :=
  [.tagSel "script", .tagSel "style", .tagSel "noscript", .tagSel "nav",
   .tagSel "header", .tagSel "footer", .tagSel "form", .tagSel "button",
   .classSub "subscribe", .classSub "share", .classSub "follow",
   .classSub "feedback", .classSub "poll", .classTok "advertisement"]

/-- The noise-selector list of scrapeCodePostContent. -/
def codeNoiseSels : List Sel :=
  [.tagSel "script", .tagSel "style", .tagSel "noscript", .tagSel "nav",
   .tagSel "header", .tagSel "footer", .tagSel "form", .tagSel "button",
   .classSub "subscribe", .classSub "feedback", .classTok "advertisement"]

/-- The sponsor-stripping tag union of scrapePostContent. -/
def shSponsorTags : List String := ["h1", "h2", "h3", "h4", "p", "div"]

/-- The sponsor-stripping tag union of scrapeCodePostContent (leaf text
elements only, no div containers). -/
def codeSponsorTags : List String := ["h1", "h2", "h3", "h4", "h5", "p"]

/-- Models the run of regex newline collapsing: every run of three or more
newlines becomes exactly two; pending counts newlines not yet emitted. -/
def collapseNlGo : Nat → List Char → List Char
  | pending, [] => List.replicate (min pending 2) '\n'
  | pending, c :: cs =>
      if c == '\n' then collapseNlGo (pending + 1) cs
      else List.replicate (min pending 2) '\n' ++ c :: collapseNlGo 0 cs

/-- markdown.replace of three or more newlines by two. -/
def collapseNewlines (s : String) : String := String.mk (collapseNlGo 0 s.data)

/-- Matches the a-with-href selector of the link-collection loops. -/
def isHrefAnchor (n : Node) : Bool :=
  n.tagOf == "a" && (attrOf n "href").isSome

/-- The qualification test of the link-collection loops, minus the seen-set
check: non-empty href, not a fragment, href free of every excluded substring
(own domain and social or subscription endpoints), non-empty trimmed text. -/
def linkQualifies (excl : List String) (href text : String) : Bool :=
  href ≠ "" && !jsStartsWith href "#" &&
    excl.all (fun s => !jsIncludes href s) && text ≠ ""

/-- The link-collection loop with its seen set. -/
def collectLinksGo (excl : List String) : List Node → List String → List ExtLink
  | [], _ => []
  | a :: rest, seen =>
      let href := (attrOf a "href").getD ""
      let text := jsTrim a.textOf
      if linkQualifies excl href text && !seen.contains href then
        { text := text, url := href } :: collectLinksGo excl rest (href :: seen)
      else collectLinksGo excl rest seen

/-- External-link collection over the cleaned content region. -/
def collectLinks (excl : List String) (contentEl : Node) : List ExtLink :=
  collectLinksGo excl (qAll isHrefAnchor contentEl) []

/-- The excluded href substrings of scrapePostContent. -/
def shLinkExcl : List String :=
  ["superhuman.ai", "beehiiv.com", "twitter.com/intent", "facebook.com/sharer",
   "linkedin.com/sharing"]

/-- The excluded href substrings of scrapeCodePostContent. -/
def codeLinkExcl : List String :=
  ["codenewsletter.ai", "beehiiv.com", "twitter.com/intent", "facebook.com/sharer",
   "linkedin.com/sharing"]

/-- The title fallback shared by both extraction functions: when the loop
left the title empty or equal to the listing title, prefer the og title
meta tag, then the trimmed text of the first h1, else keep the current
title. -/
def titleFallback (root : Node) (listingTitle t : String) : String :=
  if t = "" ∨ t = listingTitle then
    ((ogContent "og:title" root) <|> ((qFirst (tagIs "h1") root).map (fun h => jsTrim h.textOf))).getD t
  else t

/-- scrapePostContent of the source, applied to the parsed post page.
parseLd models JSON.parse on a script-block text (none when parsing throws),
fmtDate models the toLocaleDateString reformatting, and toMarkdown models
the turndown conversion of the inner HTML of the cleaned region. -/
def scrapePostContent (parseLd : String → Option LdData) (fmtDate : String → String)
    (toMarkdown : Node → String) (listing : PostListing) (root : Node) : PostContent :=
  let m0 : MetaFields :=
    { title := listing.title, date := listing.date, description := "", image := "",
      author := "Zain Kahn" }
  let m := (ldScriptTexts root).foldl (fun m s => shLdStep fmtDate m (parseLd s)) m0
  let title := titleFallback root listing.title m.title
  let description := if m.description = "" then (ogContent "og:description" root).getD ""
    else m.description
  let featuredImage := if m.image = "" then (ogContent "og:image" root).getD "" else m.image
  let contentEl := contentRegion root
  let cleaned := stripSponsors shSponsorTags (stripNoise shNoiseSels contentEl)
  let markdown := jsTrim (collapseNewlines (toMarkdown cleaned))
  let externalLinks := collectLinks shLinkExcl cleaned
  { title := title, date := m.date, url := listing.url, slug := listing.slug,
    author := m.author, subtitle := description, content_markdown := markdown,
    external_links := externalLinks,
    featured_image := if featuredImage = "" then none else some featuredImage }

/-- scrapeCodePostContent of the source: same pipeline with the Code noise
selectors, the leaf-only sponsor tags, the Code link exclusions, and a
constant author. -/
def scrapeCodePostContent (parseLd : String → Option LdData) (fmtDate : String → String)
    (toMarkdown : Node → String) (listing : PostListing) (root : Node) : PostContent :=
  let m0 : MetaFields :=
    { title := listing.title, date := listing.date, description := "", image := "",
      author := codeAuthor }
  let m := (ldScriptTexts root).foldl (fun m s => codeLdStep fmtDate m (parseLd s)) m0
  let title := titleFallback root listing.title m.title
  let description := if m.description = "" then (ogContent "og:description" root).getD ""
    else m.description
  let featuredImage := if m.image = "" then (ogContent "og:image" root).getD "" else m.image
  let contentEl := contentRegion root
  let cleaned := stripSponsors codeSponsorTags (stripNoise codeNoiseSels contentEl)
  let markdown := jsTrim (collapseNewlines (toMarkdown cleaned))
  let externalLinks := collectLinks codeLinkExcl cleaned
  { title := title, date := m.date, url := listing.url, slug := listing.slug,
    author := m.author, subtitle := description, content_markdown := markdown,
    external_links := externalLinks,
    featured_image := if featuredImage = "" then none else some featuredImage }

-- ### Digest formatting (formatDigest and formatCodeDigest).
-- The compiled-at date of the header is the only impure input of the
-- formatters; it is passed in as ts.

/-- The section divider of both formatters. -/
def divider : String := "\n\n" ++ String.mk (List.replicate 80 '─') ++ "\n\n"

/-- One post section: the metadata block (empty lines filtered out), the
body and the trailing link list.  The two formatters of the source use this
identical section shape. -/
def digestSection (total i : Nat) (post : PostContent) : String :=
  let meta := String.intercalate "\n" (([
      "## [Post " ++ toString (i + 1) ++ "/" ++ toString total ++ "] " ++ post.title,
      "**Date:** " ++ post.date ++ "  |  **Author:** " ++ post.author,
      "**Source:** <" ++ post.url ++ ">",
      if post.subtitle ≠ "" then "**Summary:** " ++ post.subtitle else "",
      match post.featured_image with
      | some img => "\n![Featured Image](" ++ img ++ ")\n"
      | none => ""]).filter (fun s => s ≠ ""))
  let links :=
    if post.external_links.length ≠ 0 then
      "\n\n**Links referenced in this post:**\n" ++
        String.intercalate "\n"
          (post.external_links.map (fun l => "- [" ++ l.text ++ "](" ++ l.url ++ ")"))
    else ""
  meta ++ "\n\n" ++ post.content_markdown ++ links

/-- posts.map with its running index, as used by both formatters. -/
def digestSectionsGo (total : Nat) : Nat → List PostContent → List String
  | _, [] => []
  | i, p :: ps => digestSection total i p :: digestSectionsGo total (i + 1) ps

/-- The ordered list of rendered post sections. -/
def digestSections (posts : List PostContent) : List String :=
  digestSectionsGo posts.length 0 posts

/-- formatDigest of the source; ts is the compiled-at date line content. -/
def formatDigest (ts : String) (posts : List PostContent) : String :=
  let header := String.intercalate "\n" [
    "# Superhuman AI Newsletter — " ++ toString posts.length ++ " Most Recent Posts",
    "Compiled: " ++ ts,
    "",
    "Full content of each post is included below. Use this to produce a weekly digest",
    "with combined top stories, must-read links, and a reference back to each source URL."]
  header ++ divider ++ String.intercalate divider (digestSections posts)

/-- formatCodeDigest of the source: identical apart from the title line. -/
def formatCodeDigest (ts : String) (posts : List PostContent) : String :=
  let header := String.intercalate "\n" [
    "# The Code Newsletter — " ++ toString posts.length ++ " Most Recent Posts",
    "Compiled: " ++ ts,
    "",
    "Full content of each post is included below. Use this to produce a weekly digest",
    "with combined top stories, must-read links, and a reference back to each source URL."]
  header ++ divider ++ String.intercalate divider (digestSections posts)

-- ### Tool handlers.

/-- The MCP tool response: its text content and the isError flag (absent in
the source means false). -/
structure ToolResult where
  text : String
  isError : Bool
deriving Repr, DecidableEq

/-- The placeholder PostContent synthesized when extraction of one post
throws: the listing fields are spread in, the author is the site default,
and the body carries the error message. -/
def placeholderPost (author : String) (l : PostListing) (msg : String) : PostContent :=
  { toPostListing := l, author := author, subtitle := "",
    content_markdown := "_Could not fetch content: " ++ msg ++ "_",
    external_links := [], featured_image := none }

/-- The per-post loop of both handlers: each listing becomes either the
extracted content or an error placeholder, in listing order.  extract
models scrapePostContent including its network fetch; the politeness delay
has no observable effect here. -/
def fetchPosts (author : String) (extract : PostListing → Except String PostContent) :
    List PostListing → List PostContent
  | [] => []
  | l :: ls =>
      (match extract l with
        | .ok c => c
        | .error e => placeholderPost author l e) :: fetchPosts author extract ls

/-- The fetch_superhuman_newsletters handler: collect listings (errors from
the listing fetch reach the surrounding catch and set isError), answer with
an informational non-error message when no listing was found, otherwise
format the digest of the per-post results. -/
def fetchSuperhumanHandler (ts : String) (pages : Nat → Except String Node)
    (extract : PostListing → Except String PostContent) (count : Nat) : ToolResult :=
  match collectListings pages count with
  | .error msg => { text := "Error: " ++ msg, isError := true }
  | .ok listings =>
      if listings.length = 0 then
        { text := "No posts found on superhuman.ai. The site may be temporarily unavailable.",
          isError := false }
      else
        { text := formatDigest ts (fetchPosts "Zain Kahn" extract listings), isError := false }

/-- The fetch_code_newsletter handler: a single archive fetch sliced to the
requested count, with the same error policy. -/
def fetchCodeHandler (ts : String) (archivePage : Except String Node)
    (extract : PostListing → Except String PostContent) (count : Nat) : ToolResult :=
  match archivePage.map (fun root => (scrapeCodeListings root).take count) with
  | .error msg => { text := "Error: " ++ msg, isError := true }
  | .ok target =>
      if target.length = 0 then
        { text := "No posts found on codenewsletter.ai. The site may be temporarily unavailable.",
          isError := false }
      else
        { text := formatCodeDigest ts (fetchPosts codeAuthor extract target), isError := false }


-- ### Concrete example inputs used by counterexamples and witnesses.

deriving instance DecidableEq for Except

/-- A listing page holding one post anchor (used for the cross-page
duplication counterexample: every archive page serves this same anchor). -/
def exListingPage : Node := Node.el "div" [] [Node.el "a" [("href", "/p/a")] []]

/-- The reference scraped from exListingPage. -/
def exListingA : PostListing :=
  { title := "a", date := "", url := "https://www.superhuman.ai/p/a", slug := "a" }

/-- A page with no post anchors at all. -/
def exEmptyPage : Node := Node.el "div" [] []

-- C4 inputs
def exListing4 : PostListing := { title := "Hello", date := "Jan 1", url := "u", slug := "s" }

def exRoot4 : Node := Node.el "html" []
  [Node.el "head" []
    [Node.el "script" [("type", "application/ld+json")] [.text "LD1"],
     Node.el "meta" [("property", "og:title"), ("content", "OG Title")] []],
   Node.el "body" [] []]

def exParseLd4 : String → Option LdData :=
  fun s => if s == "LD1" then some ⟨"Hello", "", "", "", ""⟩ else none

-- C5 inputs
def exListing5 : PostListing := { title := "seed", date := "Jan 1", url := "u", slug := "s" }

def exRoot5 : Node := Node.el "html" []
  [Node.el "script" [("type", "application/ld+json")] [.text "L1"],
   Node.el "script" [("type", "application/ld+json")] [.text "L2"]]

def exParseLd5 : String → Option LdData :=
  fun s => if s == "L1" then some ⟨"A", "", "", "", ""⟩
    else if s == "L2" then some ⟨"B", "", "", "", ""⟩ else none

-- C6 inputs
def exRoot6 : Node := Node.el "html" []
  [Node.el "script" [("type", "application/ld+json")] [.text "LA"]]

def exParseLd6 : String → Option LdData :=
  fun s => if s == "LA" then some ⟨"", "", "", "", "Alice"⟩ else none

-- C8 inputs
def exShareRegion : Node := Node.el "div" []
  [Node.el "div" [("class", "share-buttons")] [.text "x"], Node.el "p" [] [.text "keep"]]

-- C10 inputs
def exSponsorRegion : Node := Node.el "div" []
  [Node.el "div" []
    [Node.el "p" [] [.text "Sponsored by Acme"], Node.el "p" [] [.text "Real content"]]]

-- C1 inputs
def exListB (slug : String) : PostListing :=
  { title := slug, date := "d", url := "https://www.superhuman.ai/p/" ++ slug, slug := slug }

def exContentOf (l : PostListing) : PostContent :=
  { toPostListing := l, author := "A", subtitle := "", content_markdown := "body",
    external_links := [], featured_image := none }

def ex3Listings : List PostListing := [exListB "a", exListB "b", exListB "c"]

def ex3Extract : PostListing → Except String PostContent :=
  fun l => if l.slug == "b" then Except.error "HTTP 500 fetching u" else Except.ok (exContentOf l)

-- C7 inputs
def exLinkRegion : Node := Node.el "div" []
  [Node.el "a" [("href", "#section")] [.text "Jump"],
   Node.el "a" [("href", "https://www.superhuman.ai/about")] [.text "About"],
   Node.el "a" [("href", "https://external.example/story")] [.text "Read more"]]

-- ### Specification-side definitions used to state the claims.

/-- The last structured-data block of the list providing a non-empty value
of the given field, if any (the source loop overwrites on every block, so
the final value comes from the last provider). -/
def lastField (f : LdData → String) : List LdData → Option String
  | [] => none
  | d :: ds => (lastField f ds) <|> (if f d ≠ "" then some (f d) else none)

/-- The structured-data blocks of a page that parse, in document order. -/
def parsedBlocks (parseLd : String → Option LdData) (root : Node) : List LdData :=
  (ldScriptTexts root).filterMap parseLd

/-- The candidate external link carried by an anchor. -/
def anchorLinkOf (a : Node) : ExtLink :=
  { text := jsTrim a.textOf, url := (attrOf a "href").getD "" }

/-- The anchors of the cleaned region that qualify as external links, in
document order, before deduplication. -/
def qualifyingLinks (excl : List String) (region : Node) : List ExtLink :=
  ((qAll isHrefAnchor region).map anchorLinkOf).filter
    (fun l => linkQualifies excl l.url l.text)

/-- First-occurrence-wins deduplication by url, with a seen accumulator. -/
def dedupByUrlGo : List ExtLink → List String → List ExtLink
  | [], _ => []
  | l :: ls, seen =>
      if seen.contains l.url then dedupByUrlGo ls seen
      else l :: dedupByUrlGo ls (l.url :: seen)

/-- First-occurrence-wins deduplication by url. -/
def dedupByUrl (ls : List ExtLink) : List ExtLink := dedupByUrlGo ls []

/-- Class-attribute substring test (the class-contains selectors). -/
def classAttrSub (attrs : List (String × String)) (s : String) : Bool :=
  match (attrs.find? (fun p => p.1 == "class")).map (fun p => p.2) with
  | some v => jsIncludes v s
  | none => false

/-- Class-attribute token test (plain class selectors). -/
def classAttrTok (attrs : List (String × String)) (s : String) : Bool :=
  match (attrs.find? (fun p => p.1 == "class")).map (fun p => p.2) with
  | some v => (classTokens v).contains s
  | none => false

/-- The noise predicate of the Superhuman extractor spelled out: the eight
structural tags, the five class-substring patterns, and the advertisement
class token. -/
def shNoiseMatcher (t : String) (a : List (String × String)) : Bool :=
  t == "script" || t == "style" || t == "noscript" || t == "nav" || t == "header" ||
    t == "footer" || t == "form" || t == "button" || classAttrSub a "subscribe" ||
    classAttrSub a "share" || classAttrSub a "follow" || classAttrSub a "feedback" ||
    classAttrSub a "poll" || classAttrTok a "advertisement"

/-- The noise predicate of the Code extractor spelled out: the same eight
structural tags, but only the subscribe and feedback class-substring
patterns besides the advertisement class token. -/
def codeNoiseMatcher (t : String) (a : List (String × String)) : Bool :=
  t == "script" || t == "style" || t == "noscript" || t == "nav" || t == "header" ||
    t == "footer" || t == "form" || t == "button" || classAttrSub a "subscribe" ||
    classAttrSub a "feedback" || classAttrTok a "advertisement"

/-- The part of the Superhuman digest before the compiled-at date. -/
def shDigestPre (posts : List PostContent) : String :=
  "# Superhuman AI Newsletter — " ++ toString posts.length ++ " Most Recent Posts" ++
    "\n" ++ "Compiled: "

/-- The part of the Superhuman digest after the compiled-at date: the fixed
instructional paragraph and the divider-joined post sections. -/
def shDigestSuf (posts : List PostContent) : String :=
  "\n" ++ "" ++ "\n" ++
    "Full content of each post is included below. Use this to produce a weekly digest" ++
    "\n" ++
    "with combined top stories, must-read links, and a reference back to each source URL." ++
    divider ++ String.intercalate divider (digestSections posts)

/-- The part of the Code digest before the compiled-at date. -/
def codeDigestPre (posts : List PostContent) : String :=
  "# The Code Newsletter — " ++ toString posts.length ++ " Most Recent Posts" ++
    "\n" ++ "Compiled: "

/-- The part of the Code digest after the compiled-at date. -/
def codeDigestSuf (posts : List PostContent) : String :=
  shDigestSuf posts

-- ### General lemmas about the embedding.

theorem string_append_left_cancel {a b c : String} (h : a ++ b = a ++ c) : b = c := by
  apply String.ext
  have hd : (a ++ b).data = (a ++ c).data := by rw [h]
  rw [String.data_append, String.data_append] at hd
  exact List.append_cancel_left hd

theorem fetchPosts_length (author : String) (extract : PostListing → Except String PostContent)
    (ls : List PostListing) : (fetchPosts author extract ls).length = ls.length := by
  induction ls with
  | nil => rfl
  | cons l ls ih => simp [fetchPosts, ih]

theorem fetchPosts_getElem? (author : String) (extract : PostListing → Except String PostContent)
    (ls : List PostListing) (i : Nat) :
    (fetchPosts author extract ls)[i]? =
      (ls[i]?).map (fun l =>
        match extract l with
        | .ok c => c
        | .error e => placeholderPost author l e) := by
  induction ls generalizing i with
  | nil => simp [fetchPosts]
  | cons l ls ih =>
      cases i with
      | zero => simp [fetchPosts]
      | succ n => simpa [fetchPosts] using ih n

mutual
theorem removeAll_comp (m1 m2 : String → List (String × String) → Bool) :
    ∀ n, Node.removeAll m1 (Node.removeAll m2 n) =
      Node.removeAll (fun t a => m2 t a || m1 t a) n
  | .text _ => rfl
  | .elem t a cs => by
      simp only [Node.removeAll]
      rw [removeAllList_comp m1 m2 cs]
theorem removeAllList_comp (m1 m2 : String → List (String × String) → Bool) :
    ∀ ns, NodeList.removeAll m1 (NodeList.removeAll m2 ns) =
      NodeList.removeAll (fun t a => m2 t a || m1 t a) ns
  | .nil => rfl
  | .cons c cs => by
      cases c with
      | text s =>
          simp [NodeList.removeAll, Node.hitBy, Node.removeAll, removeAllList_comp m1 m2 cs]
      | elem t a cs2 =>
          by_cases h2 : m2 t a
          · simp [NodeList.removeAll, Node.hitBy, h2, removeAllList_comp m1 m2 cs]
          · by_cases h1 : m1 t a
            · simp [NodeList.removeAll, Node.hitBy, Node.removeAll, h2, h1,
                removeAllList_comp m1 m2 cs]
            · simp [NodeList.removeAll, Node.hitBy, Node.removeAll, h2, h1,
                removeAllList_comp m1 m2 cs, removeAllList_comp m1 m2 cs2]
end

mutual
theorem removeAll_congr (m m' : String → List (String × String) → Bool)
    (h : ∀ t a, m t a = m' t a) :
    ∀ n, Node.removeAll m n = Node.removeAll m' n
  | .text _ => rfl
  | .elem t a cs => by
      simp only [Node.removeAll]
      rw [removeAllList_congr m m' h cs]
theorem removeAllList_congr (m m' : String → List (String × String) → Bool)
    (h : ∀ t a, m t a = m' t a) :
    ∀ ns, NodeList.removeAll m ns = NodeList.removeAll m' ns
  | .nil => rfl
  | .cons c cs => by
      cases c with
      | text s =>
          simp [NodeList.removeAll, Node.hitBy, Node.removeAll,
            removeAllList_congr m m' h cs]
      | elem t a cs2 =>
          by_cases hm : m t a
          · simp [NodeList.removeAll, Node.hitBy, hm, ← h t a,
              removeAllList_congr m m' h cs]
          · simp [NodeList.removeAll, Node.hitBy, Node.removeAll, hm, ← h t a,
              removeAllList_congr m m' h cs, removeAllList_congr m m' h cs2]
end

mutual
theorem removeAll_false : ∀ n, Node.removeAll (fun _ _ => false) n = n
  | .text _ => rfl
  | .elem t a cs => by
      simp only [Node.removeAll]
      rw [removeAllList_false cs]
theorem removeAllList_false : ∀ ns, NodeList.removeAll (fun _ _ => false) ns = ns
  | .nil => rfl
  | .cons c cs => by
      cases c with
      | text s =>
          simp [NodeList.removeAll, Node.hitBy, removeAll_false (Node.text s),
            removeAllList_false cs]
      | elem t a cs2 =>
          simp [NodeList.removeAll, Node.hitBy, Node.removeAll,
            removeAllList_false cs, removeAllList_false cs2]
end

theorem stripNoise_eq_removeAll (sels : List Sel) (n : Node) :
    stripNoise sels n = Node.removeAll (fun t a => sels.any (fun s => selMatch s t a)) n := by
  induction sels generalizing n with
  | nil => simp [stripNoise, List.foldl_nil, removeAll_false n]
  | cons s ss ih =>
      have h1 : stripNoise (s :: ss) n = stripNoise ss (Node.removeAll (selMatch s) n) := rfl
      rw [h1, ih, removeAll_comp]
      exact removeAll_congr _ _ (fun t a => by simp [List.any_cons]) n

theorem lastField_ne_empty (f : LdData → String) :
    ∀ (ds : List LdData) (s : String), lastField f ds = some s → s ≠ "" := by
  intro ds
  induction ds with
  | nil => intro s h; simp [lastField] at h
  | cons d ds ih =>
      intro s h
      simp only [lastField] at h
      cases hA : lastField f ds with
      | some x =>
          rw [hA] at h
          simp at h
          exact h ▸ ih x hA
      | none =>
          rw [hA] at h
          by_cases hc : f d ≠ ""
          · simp [hc] at h
            exact h ▸ hc
          · simp [hc] at h

theorem foldStep_proj (step : MetaFields → Option LdData → MetaFields)
    (proj : MetaFields → String) (src : LdData → String) (tr : String → String)
    (h0 : ∀ m, step m none = m)
    (h1 : ∀ m d, proj (step m (some d)) = if src d ≠ "" then tr (src d) else proj m)
    (parseLd : String → Option LdData) :
    ∀ (texts : List String) (m : MetaFields),
      proj (texts.foldl (fun m s => step m (parseLd s)) m) =
        ((lastField src (texts.filterMap parseLd)).map tr).getD (proj m) := by
  intro texts
  induction texts with
  | nil => intro m; simp [lastField]
  | cons t ts ih =>
      intro m
      rw [List.foldl_cons]
      cases hp : parseLd t with
      | none =>
          rw [h0 m, ih m]
          simp [List.filterMap_cons, hp]
      | some d =>
          rw [ih (step m (some d)), h1 m d]
          simp only [List.filterMap_cons, hp, lastField]
          cases hA : lastField src (ts.filterMap parseLd) with
          | some y => simp
          | none =>
              by_cases hc : src d ≠ ""
              · simp [hc]
              · simp [hc]

theorem codeFold_author (fmtDate : String → String) (parseLd : String → Option LdData) :
    ∀ (texts : List String) (m : MetaFields),
      (texts.foldl (fun m s => codeLdStep fmtDate m (parseLd s)) m).author = m.author := by
  intro texts
  induction texts with
  | nil => intro m; rfl
  | cons t ts ih =>
      intro m
      rw [List.foldl_cons]
      cases hp : parseLd t with
      | none => exact ih _
      | some d => exact ih _

theorem scrapePostContent_title (parseLd : String → Option LdData) (fmtDate : String → String)
    (toMd : Node → String) (listing : PostListing) (root : Node) :
    (scrapePostContent parseLd fmtDate toMd listing root).title =
      titleFallback root listing.title
        ((lastField LdData.headline (parsedBlocks parseLd root)).getD listing.title) := by
  have h := foldStep_proj (shLdStep fmtDate) MetaFields.title LdData.headline id
    (fun m => rfl) (fun m d => rfl) parseLd (ldScriptTexts root)
    { title := listing.title, date := listing.date, description := "", image := "",
      author := "Zain Kahn" }
  simp only [scrapePostContent, parsedBlocks]
  rw [h]
  simp [Option.map_id]

theorem scrapeCodePostContent_title (parseLd : String → Option LdData) (fmtDate : String → String)
    (toMd : Node → String) (listing : PostListing) (root : Node) :
    (scrapeCodePostContent parseLd fmtDate toMd listing root).title =
      titleFallback root listing.title
        ((lastField LdData.headline (parsedBlocks parseLd root)).getD listing.title) := by
  have h := foldStep_proj (codeLdStep fmtDate) MetaFields.title LdData.headline id
    (fun m => rfl) (fun m d => rfl) parseLd (ldScriptTexts root)
    { title := listing.title, date := listing.date, description := "", image := "",
      author := codeAuthor }
  simp only [scrapeCodePostContent, parsedBlocks]
  rw [h]
  simp [Option.map_id]

theorem scrapePostContent_date (parseLd : String → Option LdData) (fmtDate : String → String)
    (toMd : Node → String) (listing : PostListing) (root : Node) :
    (scrapePostContent parseLd fmtDate toMd listing root).date =
      ((lastField LdData.datePublished (parsedBlocks parseLd root)).map fmtDate).getD
        listing.date := by
  have h := foldStep_proj (shLdStep fmtDate) MetaFields.date LdData.datePublished fmtDate
    (fun m => rfl) (fun m d => rfl) parseLd (ldScriptTexts root)
    { title := listing.title, date := listing.date, description := "", image := "",
      author := "Zain Kahn" }
  simp only [scrapePostContent, parsedBlocks]
  rw [h]

theorem scrapeCodePostContent_date (parseLd : String → Option LdData) (fmtDate : String → String)
    (toMd : Node → String) (listing : PostListing) (root : Node) :
    (scrapeCodePostContent parseLd fmtDate toMd listing root).date =
      ((lastField LdData.datePublished (parsedBlocks parseLd root)).map fmtDate).getD
        listing.date := by
  have h := foldStep_proj (codeLdStep fmtDate) MetaFields.date LdData.datePublished fmtDate
    (fun m => rfl) (fun m d => rfl) parseLd (ldScriptTexts root)
    { title := listing.title, date := listing.date, description := "", image := "",
      author := codeAuthor }
  simp only [scrapeCodePostContent, parsedBlocks]
  rw [h]

theorem scrapePostContent_subtitle (parseLd : String → Option LdData) (fmtDate : String → String)
    (toMd : Node → String) (listing : PostListing) (root : Node) :
    (scrapePostContent parseLd fmtDate toMd listing root).subtitle =
      (lastField LdData.description (parsedBlocks parseLd root)).getD
        ((ogContent "og:description" root).getD "") := by
  have h := foldStep_proj (shLdStep fmtDate) MetaFields.description LdData.description id
    (fun m => rfl) (fun m d => rfl) parseLd (ldScriptTexts root)
    { title := listing.title, date := listing.date, description := "", image := "",
      author := "Zain Kahn" }
  simp only [scrapePostContent, parsedBlocks]
  rw [h]
  cases hA : lastField LdData.description ((ldScriptTexts root).filterMap parseLd) with
  | none => simp
  | some d =>
      have hne := lastField_ne_empty LdData.description _ _ hA
      simp [hne]

theorem scrapePostContent_image (parseLd : String → Option LdData) (fmtDate : String → String)
    (toMd : Node → String) (listing : PostListing) (root : Node) :
    (scrapePostContent parseLd fmtDate toMd listing root).featured_image =
      (if ((lastField LdData.imageUrl (parsedBlocks parseLd root)).getD
        ((ogContent "og:image" root).getD "")) = "" then none
       else some ((lastField LdData.imageUrl (parsedBlocks parseLd root)).getD
        ((ogContent "og:image" root).getD ""))) := by
  have h := foldStep_proj (shLdStep fmtDate) MetaFields.image LdData.imageUrl id
    (fun m => rfl) (fun m d => rfl) parseLd (ldScriptTexts root)
    { title := listing.title, date := listing.date, description := "", image := "",
      author := "Zain Kahn" }
  simp only [scrapePostContent, parsedBlocks]
  rw [h]
  cases hA : lastField LdData.imageUrl ((ldScriptTexts root).filterMap parseLd) with
  | none => simp
  | some d =>
      have hne := lastField_ne_empty LdData.imageUrl _ _ hA
      simp [hne]

theorem scrapePostContent_author (parseLd : String → Option LdData) (fmtDate : String → String)
    (toMd : Node → String) (listing : PostListing) (root : Node) :
    (scrapePostContent parseLd fmtDate toMd listing root).author =
      (lastField LdData.authorName (parsedBlocks parseLd root)).getD "Zain Kahn" := by
  have h := foldStep_proj (shLdStep fmtDate) MetaFields.author LdData.authorName id
    (fun m => rfl) (fun m d => rfl) parseLd (ldScriptTexts root)
    { title := listing.title, date := listing.date, description := "", image := "",
      author := "Zain Kahn" }
  simp only [scrapePostContent, parsedBlocks]
  rw [h]
  simp [Option.map_id]

theorem scrapeCodePostContent_author (parseLd : String → Option LdData)
    (fmtDate : String → String) (toMd : Node → String) (listing : PostListing) (root : Node) :
    (scrapeCodePostContent parseLd fmtDate toMd listing root).author = codeAuthor := by
  have h := codeFold_author fmtDate parseLd (ldScriptTexts root)
    { title := listing.title, date := listing.date, description := "", image := "",
      author := codeAuthor }
  simp only [scrapeCodePostContent]
  rw [h]

theorem shListingsGo_urls (anchors : List (Node × Option Node)) :
    ∀ seen : List String,
      ((shListingsGo anchors seen).map PostListing.url).Nodup ∧
        (∀ u ∈ (shListingsGo anchors seen).map PostListing.url,
          ∃ h, u = shBaseUrl ++ h ∧ seen.contains h = false) := by
  induction anchors with
  | nil => intro seen; simp [shListingsGo]
  | cons a rest ih =>
      intro seen
      obtain ⟨link, card⟩ := a
      simp only [shListingsGo]
      by_cases hg : (!jsStartsWith ((attrOf link "href").getD "") "/p/" ||
          seen.contains ((attrOf link "href").getD "")) = true
      · rw [if_pos hg]
        exact ih seen
      · rw [if_neg hg]
        have hcontains : seen.contains ((attrOf link "href").getD "") = false := by
          have hb : (!jsStartsWith ((attrOf link "href").getD "") "/p/" ||
              seen.contains ((attrOf link "href").getD "")) = false := by
            simpa using hg
          exact (Bool.or_eq_false_iff.mp hb).2
        obtain ⟨ihn, ihm⟩ := ih (((attrOf link "href").getD "") :: seen)
        refine ⟨?_, ?_⟩
        · simp only [List.map_cons, List.nodup_cons]
          refine ⟨?_, ihn⟩
          intro hmem
          obtain ⟨h', hu, hc⟩ := ihm _ hmem
          have heq : (attrOf link "href").getD "" = h' := string_append_left_cancel hu
          rw [List.contains_cons] at hc
          simp [heq] at hc
        · intro u hu
          simp only [List.map_cons, List.mem_cons] at hu
          rcases hu with head | tail
          · exact ⟨(attrOf link "href").getD "", head, hcontains⟩
          · obtain ⟨h', hu', hc⟩ := ihm _ tail
            rw [List.contains_cons] at hc
            rcases Bool.or_eq_false_iff.mp hc with ⟨_, h2⟩
            exact ⟨h', hu', h2⟩

theorem codeListingsGo_urls (anchors : List Node) :
    ∀ seen : List String,
      ((codeListingsGo anchors seen).map PostListing.url).Nodup ∧
        (∀ u ∈ (codeListingsGo anchors seen).map PostListing.url,
          ∃ h, u = codeBaseUrl ++ h ∧ seen.contains h = false) := by
  induction anchors with
  | nil => intro seen; simp [codeListingsGo]
  | cons link rest ih =>
      intro seen
      simp only [codeListingsGo]
      by_cases hg : (!jsStartsWith ((attrOf link "href").getD "") "/p/" ||
          seen.contains ((attrOf link "href").getD "")) = true
      · rw [if_pos hg]
        exact ih seen
      · rw [if_neg hg]
        have hcontains : seen.contains ((attrOf link "href").getD "") = false := by
          have hb : (!jsStartsWith ((attrOf link "href").getD "") "/p/" ||
              seen.contains ((attrOf link "href").getD "")) = false := by
            simpa using hg
          exact (Bool.or_eq_false_iff.mp hb).2
        obtain ⟨ihn, ihm⟩ := ih (((attrOf link "href").getD "") :: seen)
        refine ⟨?_, ?_⟩
        · simp only [List.map_cons, List.nodup_cons]
          refine ⟨?_, ihn⟩
          intro hmem
          obtain ⟨h', hu, hc⟩ := ihm _ hmem
          have heq : (attrOf link "href").getD "" = h' := string_append_left_cancel hu
          rw [List.contains_cons] at hc
          simp [heq] at hc
        · intro u hu
          simp only [List.map_cons, List.mem_cons] at hu
          rcases hu with head | tail
          · exact ⟨(attrOf link "href").getD "", head, hcontains⟩
          · obtain ⟨h', hu', hc⟩ := ihm _ tail
            rw [List.contains_cons] at hc
            rcases Bool.or_eq_false_iff.mp hc with ⟨_, h2⟩
            exact ⟨h', hu', h2⟩

theorem collectLinksGo_eq_dedup (excl : List String) (as : List Node) :
    ∀ seen, collectLinksGo excl as seen =
      dedupByUrlGo ((as.map anchorLinkOf).filter
        (fun l => linkQualifies excl l.url l.text)) seen := by
  induction as with
  | nil => intro seen; rfl
  | cons a rest ih =>
      intro seen
      simp only [collectLinksGo, List.map_cons, List.filter_cons]
      by_cases hq : linkQualifies excl ((attrOf a "href").getD "") (jsTrim a.textOf) = true
      · have hq' : linkQualifies excl (anchorLinkOf a).url (anchorLinkOf a).text = true := hq
        rw [hq']
        simp only [if_true]
        by_cases hc : seen.contains ((attrOf a "href").getD "") = true
        · have hc' : seen.contains (anchorLinkOf a).url = true := hc
          simp only [dedupByUrlGo, hc', if_true, hq, hc, Bool.and_true, Bool.and_false,
            Bool.not_true, if_false]
          exact ih seen
        · have hcf : seen.contains ((attrOf a "href").getD "") = false :=
            Bool.eq_false_iff.mpr hc
          have hc' : seen.contains (anchorLinkOf a).url = false := hcf
          simp only [dedupByUrlGo, hc', hq, hcf, Bool.not_false, Bool.and_true, if_true,
            Bool.false_eq_true, if_false]
          exact congrArg _ (ih _)
      · have hqf : linkQualifies excl ((attrOf a "href").getD "") (jsTrim a.textOf) = false :=
          Bool.eq_false_iff.mpr hq
        have hq' : ¬ (linkQualifies excl (anchorLinkOf a).url (anchorLinkOf a).text = true) := hq
        rw [if_neg hq']
        simp only [hqf, Bool.false_and, Bool.false_eq_true, if_false]
        exact ih seen

theorem dedupByUrlGo_nodup (ls : List ExtLink) :
    ∀ seen, ((dedupByUrlGo ls seen).map ExtLink.url).Nodup ∧
      ∀ u ∈ (dedupByUrlGo ls seen).map ExtLink.url, seen.contains u = false := by
  induction ls with
  | nil => intro seen; simp [dedupByUrlGo]
  | cons l rest ih =>
      intro seen
      simp only [dedupByUrlGo]
      by_cases hc : seen.contains l.url = true
      · rw [if_pos hc]
        exact ih seen
      · rw [if_neg hc]
        have hcf : seen.contains l.url = false := Bool.eq_false_iff.mpr hc
        obtain ⟨ihn, ihm⟩ := ih (l.url :: seen)
        refine ⟨?_, ?_⟩
        · simp only [List.map_cons, List.nodup_cons]
          refine ⟨?_, ihn⟩
          intro hmem
          have := ihm _ hmem
          rw [List.contains_cons] at this
          simp at this
        · intro u hu
          simp only [List.map_cons, List.mem_cons] at hu
          rcases hu with head | tail
          · exact head ▸ hcf
          · have := ihm _ tail
            rw [List.contains_cons] at this
            exact (Bool.or_eq_false_iff.mp this).2

theorem dedupByUrlGo_sublist (ls : List ExtLink) :
    ∀ seen, (dedupByUrlGo ls seen).Sublist ls := by
  induction ls with
  | nil => intro seen; simp [dedupByUrlGo]
  | cons l rest ih =>
      intro seen
      simp only [dedupByUrlGo]
      by_cases hc : seen.contains l.url = true
      · rw [if_pos hc]
        exact (ih seen).cons l
      · rw [if_neg hc]
        exact (ih (l.url :: seen)).cons₂ l

theorem digestSectionsGo_length (total : Nat) :
    ∀ (ps : List PostContent) (k : Nat), (digestSectionsGo total k ps).length = ps.length := by
  intro ps
  induction ps with
  | nil => intro k; rfl
  | cons p rest ih => intro k; simp [digestSectionsGo, ih]

theorem digestSectionsGo_getElem? (total : Nat) :
    ∀ (ps : List PostContent) (k i : Nat),
      (digestSectionsGo total k ps)[i]? =
        (ps[i]?).map (fun p => digestSection total (k + i) p) := by
  intro ps
  induction ps with
  | nil => intro k i; simp [digestSectionsGo]
  | cons p rest ih =>
      intro k i
      cases i with
      | zero => simp [digestSectionsGo]
      | succ n =>
          simp only [digestSectionsGo, List.getElem?_cons_succ]
          rw [ih (k + 1) n]
          have h : k + 1 + n = k + (n + 1) := by omega
          rw [h]

theorem intercalate_five (s a b c d e : String) :
    String.intercalate s [a, b, c, d, e] = a ++ s ++ b ++ s ++ c ++ s ++ d ++ s ++ e := rfl

theorem formatDigest_decomp (ts : String) (posts : List PostContent) :
    formatDigest ts posts = shDigestPre posts ++ ts ++ shDigestSuf posts := by
  apply String.ext
  simp only [formatDigest, shDigestPre, shDigestSuf, intercalate_five, String.data_append,
    List.append_assoc]

theorem formatCodeDigest_decomp (ts : String) (posts : List PostContent) :
    formatCodeDigest ts posts = codeDigestPre posts ++ ts ++ codeDigestSuf posts := by
  apply String.ext
  simp only [formatCodeDigest, codeDigestPre, codeDigestSuf, shDigestSuf, intercalate_five,
    String.data_append, List.append_assoc]

-- ### Claim theorems.

/-- Claim C1: for every run of a digest tool, the per-post loop hands the
formatter exactly one PostContent per resolved reference, in reference
order; each slot is the extracted content when extraction succeeds and a
placeholder carrying the error message in its body with an empty link list
when it throws; concretely, a 3-reference run whose second extraction
throws still produces exactly 3 digest sections, the middle one a
placeholder. -/
theorem c1_placeholder_slots :
    (∀ (author : String) (extract : PostListing → Except String PostContent)
      (ls : List PostListing), (fetchPosts author extract ls).length = ls.length) ∧
    (∀ (author : String) (extract : PostListing → Except String PostContent)
      (ls : List PostListing) (i : Nat),
      (fetchPosts author extract ls)[i]? =
        (ls[i]?).map (fun l =>
          match extract l with
          | .ok c => c
          | .error e => placeholderPost author l e)) ∧
    (digestSections (fetchPosts "Zain Kahn" ex3Extract ex3Listings)).length = 3 ∧
    (fetchPosts "Zain Kahn" ex3Extract ex3Listings).map PostContent.content_markdown =
      ["body", "_Could not fetch content: HTTP 500 fetching u_", "body"] :=
  ⟨fetchPosts_length, fetchPosts_getElem?, by decide, by decide⟩

/-- Claim C2 is false on the code: URL uniqueness does not extend across
archive pages.  Here every archive page serves the same single post anchor;
collecting 2 returns that reference twice, so the returned URLs are not
pairwise distinct. -/
theorem c2_counterexample :
    collectListings (fun _ => Except.ok exListingPage) 2 =
      Except.ok [exListingA, exListingA] ∧
    ¬ (([exListingA, exListingA].map PostListing.url).Nodup) :=
  ⟨by decide, by decide⟩

/-- Claim C2 amended: listing collection returns at most N references, and
URL uniqueness holds within one scraped page (and for the single-page Code
archive after slicing), but the Superhuman paginator does not deduplicate
across pages. -/
theorem c2_amended :
    (∀ (pages : Nat → Except String Node) (count : Nat) (l : List PostListing),
      collectListings pages count = Except.ok l → l.length ≤ count) ∧
    (∀ root : Node, ((scrapePostListings root).map PostListing.url).Nodup) ∧
    (∀ (root : Node) (count : Nat),
      ((scrapeCodeListings root).take count).length ≤ count ∧
      ((((scrapeCodeListings root).take count).map PostListing.url).Nodup)) := by
  refine ⟨?_, ?_, ?_⟩
  · intro pages count l h
    simp only [collectListings] at h
    cases hgo : collectGo pages count (count + 1) 1 [] with
    | error e => rw [hgo] at h; simp [Except.map] at h
    | ok all =>
        rw [hgo] at h
        simp only [Except.map, Except.ok.injEq] at h
        rw [← h]
        exact List.length_take_le count all
  · intro root
    exact (shListingsGo_urls _ []).1
  · intro root count
    refine ⟨List.length_take_le count _, ?_⟩
    have hnd := (codeListingsGo_urls (qAll isPostAnchor root) []).1
    have hsub := (List.take_sublist count (scrapeCodeListings root)).map PostListing.url
    exact List.Nodup.sublist hsub hnd

/-- Witness for the amended C2: a concrete collection run returning two
references respects the at-most-N bound. -/
theorem c2_amended_witness :
    collectListings (fun _ => Except.ok exListingPage) 2 =
      Except.ok [exListingA, exListingA] ∧
    ([exListingA, exListingA] : List PostListing).length ≤ 2 :=
  ⟨by decide, c2_amended.1 (fun _ => Except.ok exListingPage) 2 [exListingA, exListingA]
    (by decide)⟩

/-- Claim C3 is false on the code: a listing page that fetches successfully
but contains no post anchors is a total absence of discoverable listings,
yet the handler answers with a non-error informational message (isError is
false). -/
theorem c3_counterexample :
    collectListings (fun _ => Except.ok exEmptyPage) 7 = Except.ok [] ∧
    (fetchSuperhumanHandler "ts" (fun _ => Except.ok exEmptyPage)
      (fun _ => Except.error "x") 7).isError = false :=
  ⟨by decide, by decide⟩

/-- Claim C3 amended: a digest tool result carries the top-level error flag
exactly when the listing fetch itself fails; a successful fetch that finds
no listing yields a non-error message, and whenever listings are found the
digest is returned as a non-error result regardless of the per-post
extraction outcomes (the flag does not depend on extract). -/
theorem c3_amended :
    ∀ (ts : String) (pages : Nat → Except String Node)
      (extract : PostListing → Except String PostContent) (count : Nat),
      ((fetchSuperhumanHandler ts pages extract count).isError = true ↔
        ∃ e, collectListings pages count = Except.error e) ∧
      (∀ archivePage : Except String Node,
        (fetchCodeHandler ts archivePage extract count).isError = true ↔
          ∃ e, archivePage = Except.error e) := by
  intro ts pages extract count
  constructor
  · cases h : collectListings pages count with
    | error e => simp [fetchSuperhumanHandler, h]
    | ok listings =>
        simp only [fetchSuperhumanHandler, h]
        split <;> simp
  · intro archivePage
    cases archivePage with
    | error e => simp [fetchCodeHandler, Except.map]
    | ok root =>
        simp only [fetchCodeHandler, Except.map]
        split <;> simp

/-- Claim C4 is false on the code: a page providing both a structured-data
headline and an og:title still gets the og:title whenever the headline
coincides with the listing-seeded title, because the fallback triggers on
title equality with the listing title. -/
theorem c4_counterexample :
    lastField LdData.headline (parsedBlocks exParseLd4 exRoot4) = some "Hello" ∧
    ogContent "og:title" exRoot4 = some "OG Title" ∧
    (scrapePostContent exParseLd4 id (fun _ => "") exListing4 exRoot4).title = "OG Title" ∧
    ("OG Title" : String) ≠ "Hello" :=
  ⟨by decide, by decide, by decide, by decide⟩

/-- Claim C4 amended: the extracted title is the last structured-data
headline whenever one is provided and it differs from the listing title;
when no headline is provided, or the headline equals the listing-seeded
title, the og:title meta tag (then the first h1, then the seed) is used
instead. -/
theorem c4_amended :
    (∀ (parseLd : String → Option LdData) (fmtDate : String → String) (toMd : Node → String)
      (listing : PostListing) (root : Node),
      (scrapePostContent parseLd fmtDate toMd listing root).title =
        titleFallback root listing.title
          ((lastField LdData.headline (parsedBlocks parseLd root)).getD listing.title)) ∧
    (∀ (parseLd : String → Option LdData) (fmtDate : String → String) (toMd : Node → String)
      (listing : PostListing) (root : Node),
      (scrapeCodePostContent parseLd fmtDate toMd listing root).title =
        titleFallback root listing.title
          ((lastField LdData.headline (parsedBlocks parseLd root)).getD listing.title)) ∧
    (∀ (parseLd : String → Option LdData) (fmtDate : String → String) (toMd : Node → String)
      (listing : PostListing) (root : Node) (hd : String),
      lastField LdData.headline (parsedBlocks parseLd root) = some hd →
      hd ≠ listing.title →
      (scrapePostContent parseLd fmtDate toMd listing root).title = hd) := by
  refine ⟨scrapePostContent_title, scrapeCodePostContent_title, ?_⟩
  intro parseLd fmtDate toMd listing root hd hA hne
  rw [scrapePostContent_title, hA]
  simp only [Option.getD_some, titleFallback]
  have hne2 : hd ≠ "" := lastField_ne_empty LdData.headline _ _ hA
  rw [if_neg (by simp [hne, hne2])]

/-- Witness for the amended C4: a concrete page whose last headline differs
from the listing title takes that headline as the extracted title. -/
theorem c4_amended_witness :
    lastField LdData.headline (parsedBlocks exParseLd5 exRoot5) = some "B" ∧
    ("B" : String) ≠ exListing5.title ∧
    (scrapePostContent exParseLd5 id (fun _ => "") exListing5 exRoot5).title = "B" :=
  ⟨by decide, by decide, c4_amended.2.2 exParseLd5 id (fun _ => "") exListing5 exRoot5 "B"
    (by decide) (by decide)⟩

/-- Claim C5 is false on the code: with two parseable structured-data
blocks both carrying a headline, extraction keeps the value of the last
block, not the first (every block overwrites the previous value). -/
theorem c5_counterexample :
    parsedBlocks exParseLd5 exRoot5 =
      [⟨"A", "", "", "", ""⟩, ⟨"B", "", "", "", ""⟩] ∧
    (scrapePostContent exParseLd5 id (fun _ => "") exListing5 exRoot5).title = "B" ∧
    ("B" : String) ≠ "A" :=
  ⟨by decide, by decide, by decide⟩

/-- Claim C5 amended: each metadata field is taken from the last parseable
structured-data block that provides it (blocks that fail to parse are
skipped silently and leave the metadata unchanged), with the date
reformatted through the locale formatter and the documented fallbacks when
no block provides the field. -/
theorem c5_amended :
    (∀ (parseLd : String → Option LdData) (fmtDate : String → String) (toMd : Node → String)
      (listing : PostListing) (root : Node),
      (scrapePostContent parseLd fmtDate toMd listing root).date =
        ((lastField LdData.datePublished (parsedBlocks parseLd root)).map fmtDate).getD
          listing.date ∧
      (scrapePostContent parseLd fmtDate toMd listing root).subtitle =
        (lastField LdData.description (parsedBlocks parseLd root)).getD
          ((ogContent "og:description" root).getD "") ∧
      (scrapePostContent parseLd fmtDate toMd listing root).featured_image =
        (if ((lastField LdData.imageUrl (parsedBlocks parseLd root)).getD
            ((ogContent "og:image" root).getD "")) = "" then none
         else some ((lastField LdData.imageUrl (parsedBlocks parseLd root)).getD
            ((ogContent "og:image" root).getD ""))) ∧
      (scrapePostContent parseLd fmtDate toMd listing root).author =
        (lastField LdData.authorName (parsedBlocks parseLd root)).getD "Zain Kahn" ∧
      (scrapeCodePostContent parseLd fmtDate toMd listing root).date =
        ((lastField LdData.datePublished (parsedBlocks parseLd root)).map fmtDate).getD
          listing.date) ∧
    (∀ (fmtDate : String → String) (m : MetaFields),
      shLdStep fmtDate m none = m ∧ codeLdStep fmtDate m none = m) := by
  refine ⟨?_, fun fmtDate m => ⟨rfl, rfl⟩⟩
  intro parseLd fmtDate toMd listing root
  exact ⟨scrapePostContent_date parseLd fmtDate toMd listing root,
    scrapePostContent_subtitle parseLd fmtDate toMd listing root,
    scrapePostContent_image parseLd fmtDate toMd listing root,
    scrapePostContent_author parseLd fmtDate toMd listing root,
    scrapeCodePostContent_date parseLd fmtDate toMd listing root⟩

/-- Claim C6 is false on the code: the Code extractor never reads the
structured-data author.  A Code post whose structured data names an author
still comes back with the site default instead of that author. -/
theorem c6_counterexample :
    lastField LdData.authorName (parsedBlocks exParseLd6 exRoot6) = some "Alice" ∧
    (scrapeCodePostContent exParseLd6 id (fun _ => "") exListing5 exRoot6).author =
      "The Code team" ∧
    ("The Code team" : String) ≠ "Alice" :=
  ⟨by decide, by decide, by decide⟩

/-- Claim C6 amended: for Superhuman posts the author is the author name of
the last parseable structured-data block providing one, defaulting to the
site constant, while Code posts always carry the Code site default author,
even when structured data provides an author name. -/
theorem c6_amended :
    (∀ (parseLd : String → Option LdData) (fmtDate : String → String) (toMd : Node → String)
      (listing : PostListing) (root : Node),
      (scrapePostContent parseLd fmtDate toMd listing root).author =
        (lastField LdData.authorName (parsedBlocks parseLd root)).getD "Zain Kahn") ∧
    (∀ (parseLd : String → Option LdData) (fmtDate : String → String) (toMd : Node → String)
      (listing : PostListing) (root : Node),
      (scrapeCodePostContent parseLd fmtDate toMd listing root).author = codeAuthor) :=
  ⟨scrapePostContent_author, scrapeCodePostContent_author⟩

/-- Claim C7: external-link collection equals first-occurrence-wins
deduplication by href of the document-ordered qualifying anchors (non-empty
href, no fragment, no excluded-domain substring, non-empty trimmed text),
hence the urls are pairwise distinct and the result preserves document
order (it is a sublist of the qualifying anchors); concretely a fragment
anchor and an own-domain anchor are dropped while an external anchor with
visible text is kept. -/
theorem c7_external_links :
    (∀ (excl : List String) (region : Node),
      collectLinks excl region = dedupByUrl (qualifyingLinks excl region)) ∧
    (∀ (excl : List String) (region : Node),
      ((collectLinks excl region).map ExtLink.url).Nodup) ∧
    (∀ (excl : List String) (region : Node),
      (collectLinks excl region).Sublist (qualifyingLinks excl region)) ∧
    collectLinks shLinkExcl exLinkRegion =
      [{ text := "Read more", url := "https://external.example/story" }] := by
  have hfuse : ∀ (excl : List String) (region : Node),
      collectLinks excl region = dedupByUrlGo (qualifyingLinks excl region) [] := by
    intro excl region
    simp only [collectLinks, qualifyingLinks]
    exact collectLinksGo_eq_dedup excl (qAll isHrefAnchor region) []
  refine ⟨?_, ?_, ?_, by decide⟩
  · intro excl region
    rw [hfuse excl region]
    rfl
  · intro excl region
    rw [hfuse excl region]
    exact (dedupByUrlGo_nodup _ []).1
  · intro excl region
    rw [hfuse excl region]
    exact dedupByUrlGo_sublist _ []

/-- Claim C8 is false on the code: only the Superhuman extractor removes
elements whose class matches the share, follow or poll patterns; the Code
extractor leaves such elements in place (its selector list lacks those
three patterns). -/
theorem c8_counterexample :
    stripNoise codeNoiseSels exShareRegion = exShareRegion ∧
    (stripNoise codeNoiseSels exShareRegion).textOf = "xkeep" ∧
    (stripNoise shNoiseSels exShareRegion).textOf = "keep" ∧
    classAttrSub [("class", "share-buttons")] "share" = true :=
  ⟨rfl, by decide, by decide, by decide⟩

/-- Claim C8 amended: noise stripping removes exactly the elements matched
by the per-site predicate: for Superhuman the eight structural tags plus
the subscribe, share, follow, feedback and poll class-substring patterns
and the advertisement class token; for the Code site the same structural
tags but only the subscribe and feedback class patterns besides the
advertisement class token. -/
theorem c8_amended :
    (∀ n : Node, stripNoise shNoiseSels n = Node.removeAll shNoiseMatcher n) ∧
    (∀ n : Node, stripNoise codeNoiseSels n = Node.removeAll codeNoiseMatcher n) := by
  constructor
  · intro n
    rw [stripNoise_eq_removeAll]
    refine removeAll_congr _ _ (fun t a => ?_) n
    simp [shNoiseSels, selMatch, shNoiseMatcher, classAttrSub, classAttrTok,
      List.any_cons, Bool.or_assoc]
  · intro n
    rw [stripNoise_eq_removeAll]
    refine removeAll_congr _ _ (fun t a => ?_) n
    simp [codeNoiseSels, selMatch, codeNoiseMatcher, classAttrSub, classAttrTok,
      List.any_cons, Bool.or_assoc]

/-- Claim C9: digest formatting is deterministic modulo the compiled
timestamp: the output decomposes as a fixed prefix, the timestamp, and a
fixed suffix, each depending only on the post sequence; and the rendered
sections are exactly the posts in input order (same length, section i
rendered from post i), with no sorting or re-ranking. -/
theorem c9_format_deterministic :
    (∀ (ts : String) (posts : List PostContent),
      formatDigest ts posts = shDigestPre posts ++ ts ++ shDigestSuf posts) ∧
    (∀ (ts : String) (posts : List PostContent),
      formatCodeDigest ts posts = codeDigestPre posts ++ ts ++ codeDigestSuf posts) ∧
    (∀ posts : List PostContent, (digestSections posts).length = posts.length) ∧
    (∀ (posts : List PostContent) (i : Nat),
      (digestSections posts)[i]? = (posts[i]?).map (fun p => digestSection posts.length i p)) := by
  refine ⟨formatDigest_decomp, formatCodeDigest_decomp, ?_, ?_⟩
  · intro posts
    exact digestSectionsGo_length posts.length posts 0
  · intro posts i
    have h := digestSectionsGo_getElem? posts.length posts 0 i
    simpa using h

/-- Claim C10: sponsor stripping differs per site: the Superhuman pass also
tests div containers against their aggregate descendant text, so a div
whose inner text anywhere matches a sponsor phrase is removed with all its
content, while the Code pass tests only h1 to h5 and p and keeps such div
containers (recursing into them); the concrete region with a sponsored
paragraph inside a div loses the whole div under the Superhuman pass but
only the sponsored paragraph under the Code pass. -/
theorem c10_sponsor_divs :
    (∀ (t : String) (a attrs : List (String × String)) (cs ns : NodeList),
      sponsorHit (Node.elem "div" attrs cs).textOf = true →
      stripSponsors shSponsorTags (.elem t a (.cons (.elem "div" attrs cs) ns)) =
        stripSponsors shSponsorTags (.elem t a ns)) ∧
    (∀ (t : String) (a attrs : List (String × String)) (cs ns : NodeList),
      stripSponsors codeSponsorTags (.elem t a (.cons (.elem "div" attrs cs) ns)) =
        .elem t a (.cons (stripSponsors codeSponsorTags (.elem "div" attrs cs))
          (stripSponsorsList codeSponsorTags ns))) ∧
    (stripSponsors shSponsorTags exSponsorRegion).textOf = "" ∧
    (stripSponsors codeSponsorTags exSponsorRegion).textOf = "Real content" := by
  refine ⟨?_, ?_, by decide, by decide⟩
  · intro t a attrs cs ns h
    have hc : sponsorTest shSponsorTags (Node.elem "div" attrs cs) = true := by
      simp [sponsorTest, h]
      decide
    simp only [stripSponsors, stripSponsorsList, hc, if_true]
  · intro t a attrs cs ns
    have hc : sponsorTest codeSponsorTags (Node.elem "div" attrs cs) = false := by
      simp [sponsorTest]
      intro hmem
      exact absurd hmem (by decide)
    simp only [stripSponsors, stripSponsorsList, hc, Bool.false_eq_true, if_false]

/-- Witness for C10: the Superhuman sponsor pass deletes the whole concrete
div container holding a sponsored paragraph. -/
theorem c10_sponsor_divs_witness :
    sponsorHit (Node.el "div" []
      [Node.el "p" [] [.text "Sponsored by Acme"],
       Node.el "p" [] [.text "Real content"]]).textOf = true ∧
    stripSponsors shSponsorTags exSponsorRegion =
      stripSponsors shSponsorTags (.elem "div" [] .nil) :=
  ⟨by decide, c10_sponsor_divs.1 "div" [] []
    (NodeList.ofList [Node.el "p" [] [.text "Sponsored by Acme"],
      Node.el "p" [] [.text "Real content"]]) .nil (by decide)⟩
